import Mathlib

/-!
Verification of the FIFO capital-gains engine in `src/data_processor.py`
(class `DataProcessor`).  The embedding models the numeric fields of a
normalized trade row with exact rationals, a calendar date with its year and
month (used only by the financial-year derivation) together with a linear day
index `day` (pandas timestamps are totally ordered and subtract to a day
count), and the per-symbol lot dictionary `available_shares` as a total
function from symbols to lot queues (a missing key and an empty queue are both
the empty list, exactly the two cases line 111 of the source treats alike).
Display-only formatting of dates and holding periods (`_format_date`,
`_format_holding_period`, `_format_currency`) is presentation and is left out:
the result fields carry the underlying day numbers instead of their formatted
strings.
-/

attribute [local semireducible] Rat.mul Rat.add Rat.sub Rat.inv Rat.ofScientific

namespace StockTax

/-- One normalized trade row, as consumed by `DataProcessor.process_data`.
Columns: `Symbol`, `Side`, `Trade Date` (split into `year`/`month` for the
financial-year rule and the linear index `day` for ordering and day counts),
`Units`, `Value`, `Fees`, `GST`, `AUD/USD rate`. -/
structure RawTrade where
  symbol : String
  side : String
  year : Int
  month : Nat
  day : Int
  units : ℚ
  value : ℚ
  fees : ℚ
  gst : ℚ
  rate : ℚ
deriving DecidableEq

/-- `self.cgt_discount_days = 365` from `DataProcessor.__init__`. -/
def cgtDiscountDays : Int := 365

/-- `DataProcessor._get_financial_year` (lines 69-73): month ≥ 7 renders
`FY{year % 100}_{(year+1) % 100}`, otherwise `FY{(year-1) % 100}_{year % 100}`.
Python `%` on ints and Lean `Int.emod` agree (both yield the representative in
`[0, 99]`), and Python `str` of a nonnegative int matches `toString`. -/
def getFinancialYear (year : Int) (month : Nat) : String :=
  if 7 ≤ month then
    "FY" ++ toString (year % 100) ++ "_" ++ toString ((year + 1) % 100)
  else
    "FY" ++ toString ((year - 1) % 100) ++ "_" ++ toString (year % 100)

/-- One entry of `available_shares[symbol]` (lines 92-100): acquisition date,
mutable remaining units, and the fixed `total_cost` in reporting currency.
The `date`, `value`, `fees`, `gst`, `rate` fields of the Python dict other
than the ones read later are dropped except `date`. -/
structure Lot where
  day : Int
  units : ℚ
  totalCost : ℚ
deriving DecidableEq

/-- Lot creation from a Buy row (lines 92-100):
units `abs(buy['Units'])`, cost `(abs(Value) + Fees + GST) * rate`. -/
def mkLot (t : RawTrade) : Lot :=
  { day := t.day, units := |t.units|, totalCost := (|t.value| + t.fees + t.gst) * t.rate }

/-- One entry of `matched_buys` (lines 129-133). -/
structure Matched where
  day : Int
  units : ℚ
  cost : ℚ
deriving DecidableEq

/-- Outcome of the FIFO matching loop for one sale: the `matched_buys` list,
the units still unmatched (`remaining_to_sell`), the surviving queue, and a
flag recording whether line 126 ever divided by a zero `oldest_parcel['units']`
(the embedding's rational division totalizes `0 / 0`, so the event is tracked
explicitly). -/
structure ConsumeOut where
  matched : List Matched
  remaining : ℚ
  queue : List Lot
  divZero : Bool
deriving DecidableEq

/-- The while loop at lines 121-144: while units remain and the queue is
nonempty, take `min(remaining, head.units)` from the head, apportion cost as
`head.total_cost * (taken / head.units)`, shrink the head and pop it when its
units reach zero.  When the head survives the take equals the full request and
the loop exits with nothing remaining. -/
def consumeAux : ℚ → List Lot → ConsumeOut
  | r, [] => ⟨[], r, [], false⟩
  | r, p :: rest =>
    if 0 < r then
      let take := min r p.units
      let entry : Matched := ⟨p.day, take, p.totalCost * (take / p.units)⟩
      if p.units - take ≤ 0 then
        let o := consumeAux (r - take) rest
        ⟨entry :: o.matched, o.remaining, o.queue, (decide (p.units = 0)) || o.divZero⟩
      else
        ⟨[entry], r - take, { p with units := p.units - take } :: rest, decide (p.units = 0)⟩
    else ⟨[], r, p :: rest, false⟩

/-- Per-parcel analysis of the loop at lines 161-173: holding period
`sell.day - buy.day`, `portion_proceeds = (units / units_to_sell) * proceeds`,
`parcel_gain_loss = portion_proceeds - cost`. -/
structure Parcel where
  buyDay : Int
  units : ℚ
  cost : ℚ
  holdingDays : Int
  portionProceeds : ℚ
  gainLoss : ℚ
deriving DecidableEq

/-- Builds the per-parcel record for one `matched_buy` (lines 163-165). -/
def mkParcel (sellDay : Int) (unitsToSell proceeds : ℚ) (m : Matched) : Parcel :=
  { buyDay := m.day
    units := m.units
    cost := m.cost
    holdingDays := sellDay - m.day
    portionProceeds := (m.units / unitsToSell) * proceeds
    gainLoss := (m.units / unitsToSell) * proceeds - m.cost }

/-- The per-parcel records of one sale, in `matched_buys` order. -/
def saleParcels (sellDay : Int) (unitsToSell proceeds : ℚ) (matched : List Matched) :
    List Parcel :=
  matched.map (mkParcel sellDay unitsToSell proceeds)

/-- One step of the classification loop at lines 175-185, accumulating the
`(total_discounted_gain, total_undiscounted_gain, total_loss)` triple: a
positive gain held at least `cgt_discount_days` adds half of itself to the
discounted subtotal, a positive gain held less adds itself to the
undiscounted subtotal, and a non-positive gain adds itself to the loss
subtotal. -/
def accumulate (acc : ℚ × ℚ × ℚ) (p : Parcel) : ℚ × ℚ × ℚ :=
  if 0 < p.gainLoss then
    if cgtDiscountDays ≤ p.holdingDays then
      (acc.1 + p.gainLoss * (0.5 : ℚ), acc.2.1, acc.2.2)
    else
      (acc.1, acc.2.1 + p.gainLoss, acc.2.2)
  else
    (acc.1, acc.2.1, acc.2.2 + p.gainLoss)

/-- The per-sale result dict appended at lines 207-220, with the per-parcel
analysis kept alongside the aggregates.  Dates appear as day numbers rather
than display strings. -/
structure SaleResult where
  symbol : String
  buyDates : List Int
  sellDay : Int
  units : ℚ
  costBase : ℚ
  proceeds : ℚ
  totalGainLoss : ℚ
  discountedGain : ℚ
  undiscountedGain : ℚ
  capitalLoss : ℚ
  financialYear : String
  holdingPeriods : List Int
  parcels : List Parcel
deriving DecidableEq

/-- Builds the Sale Result for an accepted sale from its `matched_buys`
(lines 150-220): sale-level proceeds `(abs(Value) - Fees - GST) * rate`,
per-parcel classification folded into the three subtotals, and
`total_gain_loss = discounted + undiscounted + loss` (line 188). -/
def mkSaleResult (s : RawTrade) (matched : List Matched) : SaleResult :=
  let unitsToSell := |s.units|
  let proceeds := (|s.value| - s.fees - s.gst) * s.rate
  let ps := saleParcels s.day unitsToSell proceeds matched
  let acc := ps.foldl accumulate (0, 0, 0)
  { symbol := s.symbol
    buyDates := matched.map (fun m => m.day)
    sellDay := s.day
    units := s.units
    costBase := (matched.map (fun m => m.cost)).sum
    proceeds := proceeds
    totalGainLoss := acc.1 + acc.2.1 + acc.2.2
    discountedGain := acc.1
    undiscountedGain := acc.2.1
    capitalLoss := acc.2.2
    financialYear := getFinancialYear s.year s.month
    holdingPeriods := matched.map (fun m => s.day - m.day)
    parcels := ps }

/-- `available_shares` as a total map from symbol to lot queue. -/
abbrev Book := String → List Lot

/-- The fresh dictionary of line 84. -/
def emptyBook : Book := fun _ => []

/-- Lines 87-100: appending the lot of one Buy row to its symbol's queue. -/
def addLot (b : Book) (t : RawTrade) : Book :=
  Function.update b t.symbol (b t.symbol ++ [mkLot t])

/-- Loading every Buy row into the book, in list order (lines 87-102). -/
def buildBook (buys : List RawTrade) : Book :=
  buys.foldl addLot emptyBook

/-- Outcome of processing one Sell row. -/
structure StepOut where
  book : Book
  result : Option SaleResult
  divZero : Bool

/-- Lines 104-220 for a single Sell row: skip when the symbol has no queue
(line 111), otherwise run the FIFO loop; a positive `remaining_to_sell`
(line 146) or an empty `matched_buys` (line 150) yields no result but keeps
the already-consumed queue; otherwise emit the Sale Result. -/
def sellStep (book : Book) (s : RawTrade) : StepOut :=
  if (book s.symbol).isEmpty then ⟨book, none, false⟩
  else
    let o := consumeAux |s.units| (book s.symbol)
    let book' := Function.update book s.symbol o.queue
    if 0 < o.remaining then ⟨book', none, o.divZero⟩
    else if o.matched.isEmpty then ⟨book', none, o.divZero⟩
    else ⟨book', some (mkSaleResult s o.matched), o.divZero⟩

/-- State threaded through the Sell loop: the book, the `results` list in
emission order, and the accumulated division-by-zero flag. -/
structure ProcOut where
  book : Book
  results : List SaleResult
  divZero : Bool

/-- One iteration of the `for _, sell in sells.iterrows()` loop. -/
def sellFold (st : ProcOut) (s : RawTrade) : ProcOut :=
  let o := sellStep st.book s
  ⟨o.book, st.results ++ o.result.toList, st.divZero || o.divZero⟩

/-- The full Sell loop over a prepared book. -/
def processSells (sells : List RawTrade) (book : Book) : ProcOut :=
  sells.foldl sellFold ⟨book, [], false⟩

/-- Chronological comparison used by `sort_values('Trade Date')`. -/
def dateLE (a b : RawTrade) : Prop := a.day ≤ b.day

instance : DecidableRel dateLE := fun a b => inferInstanceAs (Decidable (a.day ≤ b.day))

instance : IsTotal RawTrade dateLE := ⟨fun a b => le_total a.day b.day⟩

instance : IsTrans RawTrade dateLE := ⟨fun _ _ _ h₁ h₂ => le_trans h₁ h₂⟩

/-- `DataProcessor._match_trades` (lines 75-222): sort both sides by trade
date, load all Buys into the book, then process the Sells in date order. -/
def matchTrades (buys sells : List RawTrade) : ProcOut :=
  processSells (List.insertionSort dateLE sells) (buildBook (List.insertionSort dateLE buys))

/-- `DataProcessor.process_data` (lines 48-67) restricted to the matching
core: rows whose `Side` is exactly `Buy` feed the book, rows whose `Side` is
exactly `Sell` are processed as sales, all other rows are dropped by the two
filters of lines 54-55. -/
def processData (df : List RawTrade) : ProcOut :=
  matchTrades (df.filter (fun t => t.side == "Buy")) (df.filter (fun t => t.side == "Sell"))

/-- One fold step of `DataProcessor._prepare_summary` (lines 232-258), on the
summary viewed as a total map defaulting to `(0, 0, 0)` (the dict's
create-if-missing initialisation): add the discounted plus undiscounted gain
to `total_gains`, the absolute capital loss to `total_losses`, and recompute
`net_position` as their difference. -/
def foldSummary (summary : String → ℚ × ℚ × ℚ) (r : SaleResult) : String → ℚ × ℚ × ℚ :=
  let cur := summary r.financialYear
  let g := cur.1 + (r.discountedGain + r.undiscountedGain)
  let l := cur.2.1 + |r.capitalLoss|
  Function.update summary r.financialYear (g, l, g - l)

/-- `DataProcessor._prepare_summary` over the results list (before the
display-only DataFrame formatting of lines 260-265). -/
def prepareSummary (results : List SaleResult) : String → ℚ × ℚ × ℚ :=
  results.foldl foldSummary (fun _ => (0, 0, 0))

/-! ### Helper lemmas about the FIFO loop -/

theorem consumeAux_nil (r : ℚ) : consumeAux r [] = ⟨[], r, [], false⟩ := rfl

theorem consumeAux_nonpos (r : ℚ) (p : Lot) (rest : List Lot) (hr : ¬ 0 < r) :
    consumeAux r (p :: rest) = ⟨[], r, p :: rest, false⟩ := by
  simp only [consumeAux, if_neg hr]

theorem consumeAux_drain (r : ℚ) (p : Lot) (rest : List Lot) (hr : 0 < r)
    (hdrain : p.units - min r p.units ≤ 0) :
    consumeAux r (p :: rest) =
      ⟨⟨p.day, min r p.units, p.totalCost * (min r p.units / p.units)⟩ ::
          (consumeAux (r - min r p.units) rest).matched,
        (consumeAux (r - min r p.units) rest).remaining,
        (consumeAux (r - min r p.units) rest).queue,
        (decide (p.units = 0)) || (consumeAux (r - min r p.units) rest).divZero⟩ := by
  simp only [consumeAux, if_pos hr, if_pos hdrain]

theorem consumeAux_keep (r : ℚ) (p : Lot) (rest : List Lot) (hr : 0 < r)
    (hdrain : ¬ p.units - min r p.units ≤ 0) :
    consumeAux r (p :: rest) =
      ⟨[⟨p.day, min r p.units, p.totalCost * (min r p.units / p.units)⟩],
        r - min r p.units, { p with units := p.units - min r p.units } :: rest,
        decide (p.units = 0)⟩ := by
  simp only [consumeAux, if_pos hr, if_neg hdrain]

theorem consume_queue_mem (r : ℚ) (lots : List Lot) (l' : Lot)
    (h : l' ∈ (consumeAux r lots).queue) :
    ∃ l ∈ lots, l'.day = l.day ∧ l'.totalCost = l.totalCost ∧ l'.units ≤ l.units := by
  induction lots generalizing r with
  | nil => simp [consumeAux] at h
  | cons p rest ih =>
    by_cases hr : 0 < r
    · by_cases hdrain : p.units - min r p.units ≤ 0
      · simp only [consumeAux, if_pos hr, if_pos hdrain] at h
        obtain ⟨l, hl, h₁, h₂, h₃⟩ := ih (r - min r p.units) h
        exact ⟨l, List.mem_cons_of_mem _ hl, h₁, h₂, h₃⟩
      · simp only [consumeAux, if_pos hr, if_neg hdrain, List.mem_cons] at h
        rcases h with h | h
        · refine ⟨p, List.mem_cons_self _ _, by simp [h], by simp [h], ?_⟩
          have hmin : min r p.units = r := by
            rcases min_cases r p.units with ⟨h₁, _⟩ | ⟨h₁, _⟩
            · exact h₁
            · exfalso; apply hdrain; rw [h₁]; simp
          subst h
          simp only [hmin]
          linarith
        · exact ⟨l', List.mem_cons_of_mem _ h, rfl, rfl, le_refl _⟩
    · simp only [consumeAux, if_neg hr] at h
      exact ⟨l', h, rfl, rfl, le_refl _⟩

theorem consume_pos (r : ℚ) (lots : List Lot) (hpos : ∀ l ∈ lots, 0 < l.units) :
    (consumeAux r lots).divZero = false ∧
      ∀ l ∈ (consumeAux r lots).queue, 0 < l.units := by
  induction lots generalizing r with
  | nil => simp [consumeAux]
  | cons p rest ih =>
    have hpu : 0 < p.units := hpos p (List.mem_cons_self _ _)
    have hrest : ∀ l ∈ rest, 0 < l.units := fun l hl => hpos l (List.mem_cons_of_mem _ hl)
    by_cases hr : 0 < r
    · by_cases hdrain : p.units - min r p.units ≤ 0
      · obtain ⟨ih₁, ih₂⟩ := ih (r - min r p.units) hrest
        simp only [consumeAux, if_pos hr, if_pos hdrain]
        exact ⟨by simp [ih₁, hpu.ne'], ih₂⟩
      · simp only [consumeAux, if_pos hr, if_neg hdrain]
        refine ⟨by simp [hpu.ne'], ?_⟩
        intro l hl
        rcases List.mem_cons.mp hl with h | h
        · rw [h]; simpa using lt_of_not_le hdrain
        · exact hrest l h
    · simpa [consumeAux, if_neg hr] using hpos

theorem consume_fifo (r : ℚ) (lots : List Lot) (hpos : ∀ l ∈ lots, 0 < l.units)
    (i : ℕ) (hi : i < (consumeAux r lots).matched.length) :
    ∃ l m, lots[i]? = some l ∧ (consumeAux r lots).matched[i]? = some m ∧
      m.day = l.day ∧ m.units ≤ l.units ∧
      (i + 1 < (consumeAux r lots).matched.length → m = ⟨l.day, l.units, l.totalCost⟩) := by
  induction lots generalizing r i with
  | nil => simp [consumeAux_nil] at hi
  | cons p rest ih =>
    have hpu : 0 < p.units := hpos p (List.mem_cons_self _ _)
    have hrest : ∀ l ∈ rest, 0 < l.units := fun l hl => hpos l (List.mem_cons_of_mem _ hl)
    by_cases hr : 0 < r
    · by_cases hdrain : p.units - min r p.units ≤ 0
      · have hmin : min r p.units = p.units :=
          le_antisymm (min_le_right _ _) (by linarith)
        rw [consumeAux_drain r p rest hr hdrain] at hi ⊢
        cases i with
        | zero =>
          refine ⟨p, ⟨p.day, min r p.units, p.totalCost * (min r p.units / p.units)⟩,
            by simp, by simp, rfl, min_le_right _ _, ?_⟩
          intro _
          rw [hmin, div_self hpu.ne', mul_one]
        | succ i' =>
          simp only [List.length_cons, Nat.add_lt_add_iff_right] at hi
          obtain ⟨l, m, h₁, h₂, h₃, h₄, h₅⟩ := ih (r - min r p.units) hrest i' hi
          refine ⟨l, m, by simpa using h₁, by simpa using h₂, h₃, h₄, ?_⟩
          intro h
          apply h₅
          simpa [List.length_cons, Nat.add_lt_add_iff_right] using h
      · rw [consumeAux_keep r p rest hr hdrain] at hi ⊢
        have h0 : i = 0 := by
          simp only [List.length_singleton] at hi
          omega
        subst h0
        exact ⟨p, ⟨p.day, min r p.units, p.totalCost * (min r p.units / p.units)⟩,
          by simp, by simp, rfl, min_le_right _ _, by intro h; simp at h⟩
    · rw [consumeAux_nonpos r p rest hr] at hi
      simp at hi

/-! ### Helper lemmas about the book of lots -/

theorem foldl_addLot_apply (l : List RawTrade) (b : Book) (s : String) :
    (l.foldl addLot b) s = b s ++ (l.filter (fun t => t.symbol == s)).map mkLot := by
  induction l generalizing b with
  | nil => simp
  | cons t rest ih =>
    rw [List.foldl_cons, ih]
    by_cases h : t.symbol = s
    · subst h
      simp [addLot, Function.update_same, List.filter_cons]
    · have h' : (addLot b t) s = b s := Function.update_noteq (fun hs => h hs.symm) _ _
      simp [h', List.filter_cons, h]

theorem buildBook_apply (buys : List RawTrade) (s : String) :
    buildBook buys s = (buys.filter (fun t => t.symbol == s)).map mkLot := by
  simpa [emptyBook] using foldl_addLot_apply buys emptyBook s

theorem buildBook_sorted (buys : List RawTrade) (s : String) :
    List.Pairwise (fun a b : Lot => a.day ≤ b.day)
      (buildBook (List.insertionSort dateLE buys) s) := by
  rw [buildBook_apply, List.pairwise_map]
  exact (List.sorted_insertionSort dateLE buys).filter _

theorem buildBook_pos (buys : List RawTrade) (hbuys : ∀ t ∈ buys, t.units ≠ 0)
    (s : String) : ∀ l ∈ buildBook buys s, 0 < l.units := by
  intro l hl
  rw [buildBook_apply] at hl
  obtain ⟨t, ht, rfl⟩ := List.mem_map.mp hl
  have := hbuys t (List.mem_of_mem_filter ht)
  simpa [mkLot] using abs_pos.mpr this

/-- Claim C2: for every symbol and Sell, units are consumed from the
chronologically earliest remaining lot first, an older lot being fully
drained before any units come from a newer one.  Part 1: the queue built
from the date-sorted Buys is ordered by acquisition day.  Part 2: on any
positive-unit queue, the i-th matched entry draws on the i-th (hence
earliest remaining) lot, and every matched entry except the last takes the
whole lot.  Part 3: for lots acquired on days D1 < D2 < D3, a sale of fewer
units than the D1 lot holds draws its entire cost base from the D1 lot. -/
theorem fifo_consumption :
    (∀ (buys : List RawTrade) (s : String),
        List.Pairwise (fun a b : Lot => a.day ≤ b.day)
          (buildBook (List.insertionSort dateLE buys) s))
    ∧ (∀ (r : ℚ) (lots : List Lot), (∀ l ∈ lots, 0 < l.units) →
        ∀ i : ℕ, i < (consumeAux r lots).matched.length →
          ∃ l m, lots[i]? = some l ∧ (consumeAux r lots).matched[i]? = some m ∧
            m.day = l.day ∧ m.units ≤ l.units ∧
            (i + 1 < (consumeAux r lots).matched.length →
              m = ⟨l.day, l.units, l.totalCost⟩))
    ∧ (∀ (l1 l2 l3 : Lot) (rest : List Lot) (r : ℚ),
        l1.day < l2.day → l2.day < l3.day → 0 < r → r < l1.units →
          consumeAux r (l1 :: l2 :: l3 :: rest) =
            ⟨[⟨l1.day, r, l1.totalCost * (r / l1.units)⟩], 0,
              { l1 with units := l1.units - r } :: l2 :: l3 :: rest, false⟩) := by
  refine ⟨buildBook_sorted, consume_fifo, ?_⟩
  intro l1 l2 l3 rest r _ _ hr hlt
  have hu : 0 < l1.units := lt_trans hr hlt
  have hmin : min r l1.units = r := min_eq_left (le_of_lt hlt)
  have hdrain : ¬ l1.units - min r l1.units ≤ 0 := by rw [hmin]; intro h; linarith
  rw [consumeAux_keep r l1 (l2 :: l3 :: rest) hr hdrain, hmin]
  simp [sub_self, hu.ne']

def w2buy1 : RawTrade := ⟨"X", "Buy", 2023, 8, 0, 5, 100, 0, 0, 1⟩

def w2buy2 : RawTrade := ⟨"X", "Buy", 2023, 9, 30, 5, 120, 0, 0, 1⟩

theorem fifo_consumption_witness :
    (List.Pairwise (fun a b : Lot => a.day ≤ b.day)
        (buildBook (List.insertionSort dateLE [w2buy2, w2buy1]) "X"))
    ∧ (∃ l m, ([⟨0, 5, 50⟩, ⟨1, 5, 60⟩] : List Lot)[0]? = some l ∧
        (consumeAux 7 [⟨0, 5, 50⟩, ⟨1, 5, 60⟩]).matched[0]? = some m ∧
        m.day = l.day ∧ m.units ≤ l.units ∧
        (0 + 1 < (consumeAux 7 [⟨0, 5, 50⟩, ⟨1, 5, 60⟩]).matched.length →
          m = ⟨l.day, l.units, l.totalCost⟩))
    ∧ consumeAux 3 [⟨0, 5, 50⟩, ⟨10, 5, 60⟩, ⟨20, 5, 70⟩] =
        ⟨[⟨0, 3, 50 * (3 / 5)⟩], 0,
          (⟨0, 5 - 3, 50⟩ : Lot) :: (⟨10, 5, 60⟩ : Lot) :: (⟨20, 5, 70⟩ : Lot) :: [], false⟩ :=
  ⟨fifo_consumption.1 [w2buy2, w2buy1] "X",
   fifo_consumption.2.1 7 [⟨0, 5, 50⟩, ⟨1, 5, 60⟩] (by decide) 0 (by decide),
   fifo_consumption.2.2 ⟨0, 5, 50⟩ ⟨10, 5, 60⟩ ⟨20, 5, 70⟩ [] 3
     (by decide) (by decide) (by decide) (by decide)⟩

/-! ### Per-parcel contributions of the classification loop -/

/-- What one parcel adds to `total_discounted_gain` (lines 175-179). -/
def discContrib (p : Parcel) : ℚ :=
  if 0 < p.gainLoss then
    (if cgtDiscountDays ≤ p.holdingDays then p.gainLoss * (0.5 : ℚ) else 0)
  else 0

/-- What one parcel adds to `total_undiscounted_gain` (lines 180-182). -/
def undiscContrib (p : Parcel) : ℚ :=
  if 0 < p.gainLoss then
    (if cgtDiscountDays ≤ p.holdingDays then 0 else p.gainLoss)
  else 0

/-- What one parcel adds to `total_loss` (lines 183-185). -/
def lossContrib (p : Parcel) : ℚ :=
  if 0 < p.gainLoss then 0 else p.gainLoss

theorem accumulate_eq (acc : ℚ × ℚ × ℚ) (p : Parcel) :
    accumulate acc p =
      (acc.1 + discContrib p, acc.2.1 + undiscContrib p, acc.2.2 + lossContrib p) := by
  unfold accumulate discContrib undiscContrib lossContrib
  split_ifs <;> simp

theorem foldl_accumulate (ps : List Parcel) (a : ℚ × ℚ × ℚ) :
    ps.foldl accumulate a =
      (a.1 + (ps.map discContrib).sum, a.2.1 + (ps.map undiscContrib).sum,
        a.2.2 + (ps.map lossContrib).sum) := by
  induction ps generalizing a with
  | nil => simp
  | cons p rest ih =>
    rw [List.foldl_cons, accumulate_eq, ih]
    simp [add_assoc]

theorem sellStep_result_eq (book : Book) (s : RawTrade) (res : SaleResult)
    (h : (sellStep book s).result = some res) :
    ∃ matched, res = mkSaleResult s matched := by
  simp only [sellStep] at h
  split at h
  · exact absurd h (by simp)
  · split at h
    · exact absurd h (by simp)
    · split at h
      · exact absurd h (by simp)
      · exact ⟨_, (Option.some_inj.mp h).symm⟩

theorem mkSaleResult_parcels_eq (s : RawTrade) (matched : List Matched) :
    (mkSaleResult s matched).parcels =
      List.map (mkParcel s.day |s.units| ((|s.value| - s.fees - s.gst) * s.rate)) matched := rfl

theorem mkSaleResult_subtotals (s : RawTrade) (matched : List Matched) :
    (mkSaleResult s matched).discountedGain =
        ((mkSaleResult s matched).parcels.map discContrib).sum
    ∧ (mkSaleResult s matched).undiscountedGain =
        ((mkSaleResult s matched).parcels.map undiscContrib).sum
    ∧ (mkSaleResult s matched).capitalLoss =
        ((mkSaleResult s matched).parcels.map lossContrib).sum := by
  have h := foldl_accumulate
    (saleParcels s.day |s.units| ((|s.value| - s.fees - s.gst) * s.rate) matched)
    (0, 0, 0)
  refine ⟨?_, ?_, ?_⟩ <;>
    simp only [mkSaleResult, h] <;> simp

/-- Claim C3: every matched parcel is classified independently by its own
gain and holding period.  Part 1: for every accepted sale, the three
subtotals are the sums of the per-parcel contributions over its parcels.
Parts 2-4: a positive gain held at least 365 days contributes half of itself
to the discounted subtotal (and nothing elsewhere), a positive gain held
less than 365 days (in particular 364) contributes itself to the
undiscounted subtotal, and a non-positive gain contributes itself to the
loss subtotal regardless of holding period. -/
theorem parcel_classification :
    (∀ (book : Book) (s : RawTrade) (res : SaleResult),
        (sellStep book s).result = some res →
          res.discountedGain = (res.parcels.map discContrib).sum
          ∧ res.undiscountedGain = (res.parcels.map undiscContrib).sum
          ∧ res.capitalLoss = (res.parcels.map lossContrib).sum)
    ∧ (∀ p : Parcel, 0 < p.gainLoss → (365 : Int) ≤ p.holdingDays →
        discContrib p = p.gainLoss * (0.5 : ℚ) ∧ undiscContrib p = 0 ∧ lossContrib p = 0)
    ∧ (∀ p : Parcel, 0 < p.gainLoss → p.holdingDays < (365 : Int) →
        undiscContrib p = p.gainLoss ∧ discContrib p = 0 ∧ lossContrib p = 0)
    ∧ (∀ p : Parcel, p.gainLoss ≤ 0 →
        lossContrib p = p.gainLoss ∧ discContrib p = 0 ∧ undiscContrib p = 0) := by
  refine ⟨?_, ?_, ?_, ?_⟩
  · intro book s res h
    obtain ⟨matched, rfl⟩ := sellStep_result_eq book s res h
    exact mkSaleResult_subtotals s matched
  · intro p h1 h2
    simp [discContrib, undiscContrib, lossContrib, cgtDiscountDays, h1, h2]
  · intro p h1 h2
    have h3 : ¬ (365 : Int) ≤ p.holdingDays := not_le.mpr h2
    simp [discContrib, undiscContrib, lossContrib, cgtDiscountDays, h1, h3]
  · intro p h1
    have h2 : ¬ 0 < p.gainLoss := not_lt.mpr h1
    simp [discContrib, undiscContrib, lossContrib, h2]

/-- The one-lot book and matching sale used to instantiate the claims about
accepted sales at a concrete input. -/
def wBook : Book := Function.update emptyBook "X" [⟨0, 10, 100⟩]

def wSell : RawTrade := ⟨"X", "Sell", 2024, 1, 400, 10, 300, 0, 0, 1⟩

def wRes : SaleResult :=
  ⟨"X", [0], 400, 10, 100, 300, 100, 100, 0, 0, "FY23_24", [400],
    [⟨0, 10, 100, 400, 300, 200⟩]⟩

example : (sellStep wBook wSell).result = some wRes := by decide

def wDisc : Parcel := ⟨0, 1, 2, 365, 10, 8⟩

def wUndisc : Parcel := ⟨0, 1, 2, 364, 10, 8⟩

def wLoss : Parcel := ⟨0, 1, 10, 400, 4, -6⟩

theorem parcel_classification_witness :
    (wRes.discountedGain = (wRes.parcels.map discContrib).sum
      ∧ wRes.undiscountedGain = (wRes.parcels.map undiscContrib).sum
      ∧ wRes.capitalLoss = (wRes.parcels.map lossContrib).sum)
    ∧ (discContrib wDisc = wDisc.gainLoss * (0.5 : ℚ) ∧ undiscContrib wDisc = 0
        ∧ lossContrib wDisc = 0)
    ∧ (undiscContrib wUndisc = wUndisc.gainLoss ∧ discContrib wUndisc = 0
        ∧ lossContrib wUndisc = 0)
    ∧ (lossContrib wLoss = wLoss.gainLoss ∧ discContrib wLoss = 0
        ∧ undiscContrib wLoss = 0) :=
  ⟨parcel_classification.1 wBook wSell wRes (by decide),
   parcel_classification.2.1 wDisc (by decide) (by decide),
   parcel_classification.2.2.1 wUndisc (by decide) (by decide),
   parcel_classification.2.2.2 wLoss (by decide)⟩

/-- Claim C4: the cost base of a Buy lot is `(gross + fees + tax) * fx`
fixed at creation (consumption can only shrink a surviving lot's units,
never change its cost or date); an accepted sale's proceeds are
`(gross - fees - tax) * fx` computed once; each parcel's portion of proceeds
is `units_taken / total_units_sold` of the proceeds; each parcel's gain is
its portion minus its apportioned cost, with holding days the day difference
from acquisition to sale; and the sale's total equals the sum of the three
subtotals. -/
theorem sale_arithmetic :
    (∀ t : RawTrade, mkLot t = ⟨t.day, |t.units|, (|t.value| + t.fees + t.gst) * t.rate⟩)
    ∧ (∀ (r : ℚ) (lots : List Lot) (l' : Lot), l' ∈ (consumeAux r lots).queue →
        ∃ l ∈ lots, l'.day = l.day ∧ l'.totalCost = l.totalCost ∧ l'.units ≤ l.units)
    ∧ (∀ (book : Book) (s : RawTrade) (res : SaleResult),
        (sellStep book s).result = some res →
          res.proceeds = (|s.value| - s.fees - s.gst) * s.rate
          ∧ res.totalGainLoss = res.discountedGain + res.undiscountedGain + res.capitalLoss
          ∧ ∀ p ∈ res.parcels,
              p.portionProceeds = (p.units / |s.units|) * res.proceeds
              ∧ p.gainLoss = p.portionProceeds - p.cost
              ∧ p.holdingDays = s.day - p.buyDay) := by
  refine ⟨fun _ => rfl, consume_queue_mem, ?_⟩
  intro book s res h
  obtain ⟨matched, rfl⟩ := sellStep_result_eq book s res h
  refine ⟨rfl, rfl, ?_⟩
  intro p hp
  rw [mkSaleResult_parcels_eq] at hp
  obtain ⟨m, _, rfl⟩ := List.mem_map.mp hp
  exact ⟨rfl, rfl, rfl⟩

def wParcel : Parcel := ⟨0, 10, 100, 400, 300, 200⟩

theorem sale_arithmetic_witness :
    mkLot w2buy1 = ⟨w2buy1.day, |w2buy1.units|, (|w2buy1.value| + w2buy1.fees + w2buy1.gst) * w2buy1.rate⟩
    ∧ (∃ l ∈ ([⟨0, 10, 100⟩] : List Lot),
        (⟨0, 6, 100⟩ : Lot).day = l.day ∧ (⟨0, 6, 100⟩ : Lot).totalCost = l.totalCost
          ∧ (⟨0, 6, 100⟩ : Lot).units ≤ l.units)
    ∧ (wRes.proceeds = (|wSell.value| - wSell.fees - wSell.gst) * wSell.rate
       ∧ wRes.totalGainLoss = wRes.discountedGain + wRes.undiscountedGain + wRes.capitalLoss
       ∧ (wParcel.portionProceeds = (wParcel.units / |wSell.units|) * wRes.proceeds
          ∧ wParcel.gainLoss = wParcel.portionProceeds - wParcel.cost
          ∧ wParcel.holdingDays = wSell.day - wParcel.buyDay)) :=
  ⟨sale_arithmetic.1 w2buy1,
   sale_arithmetic.2.1 4 [⟨0, 10, 100⟩] ⟨0, 6, 100⟩ (by decide),
   (sale_arithmetic.2.2 wBook wSell wRes (by decide)).1,
   (sale_arithmetic.2.2 wBook wSell wRes (by decide)).2.1,
   (sale_arithmetic.2.2 wBook wSell wRes (by decide)).2.2 wParcel (by decide)⟩

/-! ### Summary aggregation -/

/-- Total gains a list of Sale Results contributes to one period. -/
def gainsFor (fy : String) (rs : List SaleResult) : ℚ :=
  ((rs.filter (fun r => r.financialYear == fy)).map
    (fun r => r.discountedGain + r.undiscountedGain)).sum

/-- Total (absolute) losses a list of Sale Results contributes to one period. -/
def lossesFor (fy : String) (rs : List SaleResult) : ℚ :=
  ((rs.filter (fun r => r.financialYear == fy)).map (fun r => |r.capitalLoss|)).sum

theorem foldSummary_apply_same (summary : String → ℚ × ℚ × ℚ) (r : SaleResult) :
    (foldSummary summary r) r.financialYear =
      ((summary r.financialYear).1 + (r.discountedGain + r.undiscountedGain),
        (summary r.financialYear).2.1 + |r.capitalLoss|,
        (summary r.financialYear).1 + (r.discountedGain + r.undiscountedGain)
          - ((summary r.financialYear).2.1 + |r.capitalLoss|)) := by
  simp [foldSummary]

theorem foldSummary_apply_ne (summary : String → ℚ × ℚ × ℚ) (r : SaleResult)
    (fy : String) (h : fy ≠ r.financialYear) :
    (foldSummary summary r) fy = summary fy := by
  simp [foldSummary, Function.update_noteq h]

theorem foldl_foldSummary (rs : List SaleResult) (init : String → ℚ × ℚ × ℚ)
    (fy : String) (hinit : (init fy).2.2 = (init fy).1 - (init fy).2.1) :
    (rs.foldl foldSummary init) fy =
      ((init fy).1 + gainsFor fy rs, (init fy).2.1 + lossesFor fy rs,
        (init fy).1 + gainsFor fy rs - ((init fy).2.1 + lossesFor fy rs)) := by
  induction rs generalizing init with
  | nil =>
    simp only [List.foldl_nil, gainsFor, lossesFor, List.filter_nil, List.map_nil,
      List.sum_nil, add_zero]
    refine Prod.ext rfl (Prod.ext rfl ?_)
    exact hinit
  | cons r rest ih =>
    rw [List.foldl_cons]
    by_cases h : r.financialYear = fy
    · subst h
      have happ := foldSummary_apply_same init r
      have hinit' : ((foldSummary init r) r.financialYear).2.2 =
          ((foldSummary init r) r.financialYear).1 -
            ((foldSummary init r) r.financialYear).2.1 := by
        rw [happ]
      rw [ih (foldSummary init r) hinit', happ]
      have hg : gainsFor r.financialYear (r :: rest) =
          (r.discountedGain + r.undiscountedGain) + gainsFor r.financialYear rest := by
        simp [gainsFor, List.filter_cons]
      have hl : lossesFor r.financialYear (r :: rest) =
          |r.capitalLoss| + lossesFor r.financialYear rest := by
        simp [lossesFor, List.filter_cons]
      rw [hg, hl]
      refine Prod.ext (by ring) (Prod.ext (by ring) (by dsimp only; ring))
    · have happ := foldSummary_apply_ne init r fy (fun hs => h hs.symm)
      have hinit' : ((foldSummary init r) fy).2.2 =
          ((foldSummary init r) fy).1 - ((foldSummary init r) fy).2.1 := by
        rw [happ]; exact hinit
      rw [ih (foldSummary init r) hinit', happ]
      have hbeq : (r.financialYear == fy) = false := beq_eq_false_iff_ne.mpr h
      have hg : gainsFor fy (r :: rest) = gainsFor fy rest := by
        simp [gainsFor, List.filter_cons, hbeq]
      have hl : lossesFor fy (r :: rest) = lossesFor fy rest := by
        simp [lossesFor, List.filter_cons, hbeq]
      rw [hg, hl]

theorem prepareSummary_closed (rs : List SaleResult) (fy : String) :
    prepareSummary rs fy =
      (gainsFor fy rs, lossesFor fy rs, gainsFor fy rs - lossesFor fy rs) := by
  have h := foldl_foldSummary rs (fun _ => (0, 0, 0)) fy (by simp)
  simpa [prepareSummary] using h

/-- Claim C8: folding a Sale Result into the summary adds its discounted
plus undiscounted gains to the period's `total_gains` and the absolute loss
subtotal to `total_losses`, then recomputes `net_position` as their
difference, leaving every other period untouched; the resulting per-period
totals are the sums over the results of that period, hence independent of
fold order (invariant under any permutation of the results). -/
theorem summary_fold_additivity :
    (∀ (summary : String → ℚ × ℚ × ℚ) (r : SaleResult),
        (foldSummary summary r) r.financialYear =
          ((summary r.financialYear).1 + (r.discountedGain + r.undiscountedGain),
            (summary r.financialYear).2.1 + |r.capitalLoss|,
            (summary r.financialYear).1 + (r.discountedGain + r.undiscountedGain)
              - ((summary r.financialYear).2.1 + |r.capitalLoss|))
        ∧ ∀ fy, fy ≠ r.financialYear → (foldSummary summary r) fy = summary fy)
    ∧ (∀ (rs : List SaleResult) (fy : String),
        prepareSummary rs fy =
          (gainsFor fy rs, lossesFor fy rs, gainsFor fy rs - lossesFor fy rs))
    ∧ (∀ (rs₁ rs₂ : List SaleResult), rs₁.Perm rs₂ → ∀ fy : String,
        prepareSummary rs₁ fy = prepareSummary rs₂ fy) := by
  refine ⟨fun summary r => ⟨foldSummary_apply_same summary r,
      fun fy h => foldSummary_apply_ne summary r fy h⟩,
    prepareSummary_closed, ?_⟩
  intro rs₁ rs₂ hperm fy
  rw [prepareSummary_closed, prepareSummary_closed]
  have hg : gainsFor fy rs₁ = gainsFor fy rs₂ :=
    ((hperm.filter _).map _).sum_eq
  have hl : lossesFor fy rs₁ = lossesFor fy rs₂ :=
    ((hperm.filter _).map _).sum_eq
  rw [hg, hl]

def w8a : SaleResult := ⟨"A", [0], 10, 1, 5, 9, 4, 3, 1, 0, "FY23_24", [10], []⟩

def w8b : SaleResult := ⟨"B", [0], 20, 1, 7, 5, -2, 0, 0, -2, "FY23_24", [20], []⟩

theorem summary_fold_additivity_witness :
    prepareSummary [w8a, w8b] "FY23_24" = prepareSummary [w8b, w8a] "FY23_24" :=
  summary_fold_additivity.2.2 [w8a, w8b] [w8b, w8a] (List.Perm.swap w8b w8a []) "FY23_24"

/-! ### The financial-year rendering -/

/-- Modelled from the claim's words, for refinement comparison only: the
`FY<YY>_<YY>` identifier with each year component rendered as exactly two
digits (zero-padded). -/
def pad2 (n : Int) : String := if n < 10 then "0" ++ toString n else toString n

/-- Modelled from the claim's words, for refinement comparison only: the
two-digit financial-year identifier the spec describes. -/
def twoDigitFY (year : Int) (month : Nat) : String :=
  if 7 ≤ month then "FY" ++ pad2 (year % 100) ++ "_" ++ pad2 ((year + 1) % 100)
  else "FY" ++ pad2 ((year - 1) % 100) ++ "_" ++ pad2 (year % 100)

/-- Counterexample to claim C5: the code does not zero-pad the two year
components, so March 2005 renders as `FY4_5`, not the two-digit `FY04_05`. -/
theorem financial_year_padding_cex :
    getFinancialYear 2005 3 = "FY4_5" ∧ twoDigitFY 2005 3 = "FY04_05" ∧
      getFinancialYear 2005 3 ≠ twoDigitFY 2005 3 := by
  refine ⟨by decide, by decide, by decide⟩

/-- Claim C5 as amended: the derivation is a pure function of year and
month — month ≥ 7 yields the period spanning the date's year to the next,
month < 7 the previous year to the date's year — rendered as
`FY<a>_<b>` with `a`, `b` the unpadded decimal renderings of the year
components mod 100; this coincides with the claimed two-digit form exactly
when each component's residue is at least 10, and every accepted sale is
tagged with the identifier of its sell date. -/
theorem financial_year_amended :
    (∀ (y : Int) (m : Nat), 7 ≤ m →
        getFinancialYear y m = "FY" ++ toString (y % 100) ++ "_" ++ toString ((y + 1) % 100))
    ∧ (∀ (y : Int) (m : Nat), m < 7 →
        getFinancialYear y m = "FY" ++ toString ((y - 1) % 100) ++ "_" ++ toString (y % 100))
    ∧ (∀ (y : Int) (m : Nat), 7 ≤ m → 10 ≤ y % 100 → 10 ≤ (y + 1) % 100 →
        getFinancialYear y m = twoDigitFY y m)
    ∧ (∀ (y : Int) (m : Nat), m < 7 → 10 ≤ (y - 1) % 100 → 10 ≤ y % 100 →
        getFinancialYear y m = twoDigitFY y m)
    ∧ (∀ (book : Book) (s : RawTrade) (res : SaleResult),
        (sellStep book s).result = some res →
          res.financialYear = getFinancialYear s.year s.month) := by
  refine ⟨?_, ?_, ?_, ?_, ?_⟩
  · intro y m hm
    simp [getFinancialYear, hm]
  · intro y m hm
    have hm' : ¬ 7 ≤ m := not_le.mpr hm
    simp [getFinancialYear, hm']
  · intro y m hm h1 h2
    simp [getFinancialYear, twoDigitFY, pad2, hm, not_lt.mpr h1, not_lt.mpr h2]
  · intro y m hm h1 h2
    have hm' : ¬ 7 ≤ m := not_le.mpr hm
    simp [getFinancialYear, twoDigitFY, pad2, hm', not_lt.mpr h1, not_lt.mpr h2]
  · intro book s res h
    obtain ⟨matched, rfl⟩ := sellStep_result_eq book s res h
    rfl

theorem financial_year_amended_witness :
    getFinancialYear 2023 8 =
        "FY" ++ toString ((2023 : Int) % 100) ++ "_" ++ toString (((2023 : Int) + 1) % 100)
    ∧ getFinancialYear 2024 3 =
        "FY" ++ toString (((2024 : Int) - 1) % 100) ++ "_" ++ toString ((2024 : Int) % 100)
    ∧ getFinancialYear 2023 8 = twoDigitFY 2023 8
    ∧ getFinancialYear 2024 3 = twoDigitFY 2024 3
    ∧ wRes.financialYear = getFinancialYear wSell.year wSell.month :=
  ⟨financial_year_amended.1 2023 8 (by decide),
   financial_year_amended.2.1 2024 3 (by decide),
   financial_year_amended.2.2.1 2023 8 (by decide) (by decide) (by decide),
   financial_year_amended.2.2.2.1 2024 3 (by decide) (by decide) (by decide),
   financial_year_amended.2.2.2.2 wBook wSell wRes (by decide)⟩

/-! ### Shortfall handling -/

def c6bx : RawTrade := ⟨"X", "Buy", 2023, 8, 1, 5, 50, 0, 0, 1⟩

def c6by : RawTrade := ⟨"Y", "Buy", 2023, 8, 1, 2, 20, 0, 0, 1⟩

def c6bz : RawTrade := ⟨"Z", "Buy", 2023, 8, 1, 2, 30, 0, 0, 1⟩

def c6sy : RawTrade := ⟨"Y", "Sell", 2023, 8, 2, 2, 40, 0, 0, 1⟩

def c6sxBad : RawTrade := ⟨"X", "Sell", 2023, 8, 3, 10, 100, 0, 0, 1⟩

def c6sz : RawTrade := ⟨"Z", "Sell", 2023, 8, 4, 2, 50, 0, 0, 1⟩

def c6sx2 : RawTrade := ⟨"X", "Sell", 2023, 8, 5, 3, 30, 0, 0, 1⟩

def c6sw : RawTrade := ⟨"W", "Sell", 2023, 8, 6, 1, 10, 0, 0, 1⟩

/-- A batch with one shortfall Sell on X (which silently drains the 5
existing X units), one Sell on a symbol W that has no lots, one X Sell made
unmatchable by the non-restored drain, and two fully matchable Sells. -/
def c6df : List RawTrade := [c6bx, c6by, c6bz, c6sy, c6sxBad, c6sz, c6sx2, c6sw]

/-- Claim C6: a Sell whose symbol has no lots, or whose requested units
exceed what remains, produces no Sale Result; the batch continues; and the
units consumed before the shortfall was discovered stay consumed.  Part 1:
the no-lots case leaves the book unchanged and yields no result.  Part 2:
the insufficient-lots case yields no result while the book keeps the
post-consumption queue (no rollback).  Part 3: the concrete batch `c6df`
with two matchable Sells yields exactly those two Sale Results, the drained
X queue stays empty (so a later X Sell is also rejected), and no exception
is modelled anywhere (processing is total). -/
theorem shortfall_skips_sale :
    (∀ (book : Book) (s : RawTrade), (book s.symbol).isEmpty = true →
        (sellStep book s).result = none ∧ (sellStep book s).book = book)
    ∧ (∀ (book : Book) (s : RawTrade), (book s.symbol).isEmpty = false →
        0 < (consumeAux |s.units| (book s.symbol)).remaining →
          (sellStep book s).result = none ∧
            (sellStep book s).book =
              Function.update book s.symbol (consumeAux |s.units| (book s.symbol)).queue)
    ∧ ((processData c6df).results.map (fun r => r.symbol) = ["Y", "Z"]
       ∧ (processData c6df).results.length = 2
       ∧ (processData c6df).book "X" = []
       ∧ (processData c6df).book "W" = []) := by
  refine ⟨?_, ?_, by decide, by decide, by decide, by decide⟩
  · intro book s h
    constructor <;> simp [sellStep, h]
  · intro book s h1 h2
    constructor <;> simp [sellStep, h1, h2]

def w6Book : Book := Function.update emptyBook "X" [⟨0, 5, 100⟩]

def w6Sell : RawTrade := ⟨"X", "Sell", 2023, 9, 10, 10, 200, 0, 0, 1⟩

theorem shortfall_skips_sale_witness :
    ((sellStep emptyBook c6sw).result = none ∧ (sellStep emptyBook c6sw).book = emptyBook)
    ∧ ((sellStep w6Book w6Sell).result = none ∧
        (sellStep w6Book w6Sell).book =
          Function.update w6Book w6Sell.symbol
            (consumeAux |w6Sell.units| (w6Book w6Sell.symbol)).queue) :=
  ⟨shortfall_skips_sale.1 emptyBook c6sw (by decide),
   shortfall_skips_sale.2.1 w6Book w6Sell (by decide) (by decide)⟩

/-! ### Division-by-zero safety -/

theorem sellStep_book_divZero (book : Book) (s : RawTrade) :
    ((sellStep book s).book = book ∧ (sellStep book s).divZero = false) ∨
    ((sellStep book s).book =
        Function.update book s.symbol (consumeAux |s.units| (book s.symbol)).queue ∧
      (sellStep book s).divZero = (consumeAux |s.units| (book s.symbol)).divZero) := by
  by_cases h : (book s.symbol).isEmpty = true
  · left
    constructor <;> simp [sellStep, h]
  · right
    by_cases h2 : 0 < (consumeAux |s.units| (book s.symbol)).remaining
    · constructor <;> simp [sellStep, h, h2]
    · by_cases h3 : (consumeAux |s.units| (book s.symbol)).matched.isEmpty = true
      · constructor <;> simp [sellStep, h, h2, h3]
      · constructor <;> simp [sellStep, h, h2, h3]

theorem sellStep_inv (book : Book) (s : RawTrade)
    (hbook : ∀ sym, ∀ l ∈ book sym, 0 < l.units) :
    (sellStep book s).divZero = false ∧
      ∀ sym, ∀ l ∈ (sellStep book s).book sym, 0 < l.units := by
  obtain ⟨hdz, hq⟩ := consume_pos |s.units| (book s.symbol) (hbook s.symbol)
  rcases sellStep_book_divZero book s with ⟨hb, hz⟩ | ⟨hb, hz⟩
  · exact ⟨hz, by rw [hb]; exact hbook⟩
  · refine ⟨by rw [hz]; exact hdz, ?_⟩
    rw [hb]
    intro sym l hl
    by_cases hs : sym = s.symbol
    · subst hs
      rw [Function.update_same] at hl
      exact hq l hl
    · rw [Function.update_noteq hs] at hl
      exact hbook sym l hl

theorem processSells_inv (sells : List RawTrade) (st : ProcOut)
    (hbook : ∀ sym, ∀ l ∈ st.book sym, 0 < l.units) (hdz : st.divZero = false) :
    (sells.foldl sellFold st).divZero = false := by
  induction sells generalizing st with
  | nil => simpa using hdz
  | cons s rest ih =>
    rw [List.foldl_cons]
    obtain ⟨hdz', hinv'⟩ := sellStep_inv st.book s hbook
    apply ih
    · intro sym l hl
      exact hinv' sym l (by simpa [sellFold] using hl)
    · simp [sellFold, hdz, hdz']

/-- A batch whose middle Buy has zero units: the Sell of 4 units drains the
3-unit lot, then reaches the zero-unit lot with one unit still wanted and
divides by its zero remaining units. -/
def c9df : List RawTrade :=
  [⟨"X", "Buy", 2023, 8, 1, 3, 30, 0, 0, 1⟩, ⟨"X", "Buy", 2023, 8, 2, 0, 0, 0, 0, 1⟩,
    ⟨"X", "Buy", 2023, 8, 3, 5, 50, 0, 0, 1⟩, ⟨"X", "Sell", 2023, 8, 4, 4, 80, 0, 0, 1⟩]

/-- Claim C9: when every Buy in the batch has nonzero units, the cost
apportionment never divides by a zero lot size (every lot in every queue
stays strictly positive); without that precondition, a zero-unit Buy plus a
Sell requesting more than the earlier lots hold reaches the division by
zero, witnessed by the tracked flag on the batch `c9df`. -/
theorem no_div_by_zero_for_nonzero_buys :
    (∀ df : List RawTrade, (∀ t ∈ df, t.side = "Buy" → t.units ≠ 0) →
        (processData df).divZero = false)
    ∧ (processData c9df).divZero = true := by
  constructor
  · intro df hdf
    unfold processData matchTrades processSells
    apply processSells_inv
    · intro sym l hl
      refine buildBook_pos _ ?_ sym l hl
      intro t ht
      have ht' : t ∈ (df.filter (fun u => u.side == "Buy")) :=
        (List.perm_insertionSort dateLE _).mem_iff.mp ht
      have hmem := List.mem_filter.mp ht'
      exact hdf t hmem.1 (by simpa using hmem.2)
    · rfl
  · decide

def c9good : List RawTrade :=
  [⟨"X", "Buy", 2023, 8, 1, 2, 20, 0, 0, 1⟩, ⟨"X", "Sell", 2023, 8, 2, 1, 15, 0, 0, 1⟩]

theorem no_div_by_zero_witness : (processData c9good).divZero = false :=
  no_div_by_zero_for_nonzero_buys.1 c9good (by decide)

/-! ### Future-dated lots -/

/-- A Sell dated before the only Buy of its symbol: all Buys are loaded
into the book before any Sell is processed, so the sale still matches. -/
def c10df : List RawTrade :=
  [⟨"X", "Buy", 2023, 1, 100, 10, 10, 0, 0, 1⟩,
    ⟨"X", "Sell", 2022, 11, 50, 10, 100, 0, 0, 1⟩]

/-- Claim C10: a parcel whose lot was acquired after the sell date has
negative holding days and, when its gain is positive, is always classified
Undiscounted (never Discounted); the pipeline accepts such sales instead of
rejecting them, as the batch `c10df` shows (one result, holding days −50,
positive gain 90 landing entirely in the undiscounted subtotal). -/
theorem future_dated_lot_undiscounted :
    (∀ p : Parcel, p.holdingDays < 0 → 0 < p.gainLoss →
        discContrib p = 0 ∧ undiscContrib p = p.gainLoss ∧ lossContrib p = 0)
    ∧ ((processData c10df).results.map (fun r => r.holdingPeriods) = [[-50]]
       ∧ (processData c10df).results.map (fun r => r.parcels.map (fun p => p.gainLoss)) = [[90]]
       ∧ (processData c10df).results.map (fun r => r.undiscountedGain) = [90]
       ∧ (processData c10df).results.map (fun r => r.discountedGain) = [0]) := by
  refine ⟨?_, by decide, by decide, by decide, by decide⟩
  intro p h1 h2
  have h3 : ¬ (cgtDiscountDays ≤ p.holdingDays) := by
    rw [cgtDiscountDays]
    omega
  simp [discContrib, undiscContrib, lossContrib, h2, h3]

def wFut : Parcel := ⟨0, 1, 1, -5, 2, 1⟩

theorem future_dated_lot_undiscounted_witness :
    discContrib wFut = 0 ∧ undiscContrib wFut = wFut.gainLoss ∧ lossContrib wFut = 0 :=
  future_dated_lot_undiscounted.1 wFut (by decide) (by decide)

/-! ### Cost conservation across partial consumptions -/

def c1buy : RawTrade := ⟨"X", "Buy", 2023, 8, 0, 10, 1000, 0, 0, 1⟩

def c1sell1 : RawTrade := ⟨"X", "Sell", 2023, 8, 10, 4, 400, 0, 0, 1⟩

def c1sell2 : RawTrade := ⟨"X", "Sell", 2023, 8, 20, 6, 600, 0, 0, 1⟩

/-- One 10-unit lot of original cost 1000, consumed by a 4-unit sale and
then a 6-unit sale. -/
def c1df : List RawTrade := [c1buy, c1sell1, c1sell2]

/-- Claim C1 is violated by the code (code bug): consumption reduces
`remaining_units` by exactly the units taken, but a lot's `total_cost` is
never reduced, so the second consumption apportions
`1000 × (6 / 6) = 1000` instead of the remaining `600`: across the two
sales that fully consume the lot the apportioned costs sum to `1400`, not
the original `1000`.  The first sale leaves the queue at
`units = 6, total_cost = 1000`, exhibiting the unreduced cost. -/
theorem lot_cost_not_conserved :
    (mkLot c1buy).totalCost = 1000
    ∧ (sellStep (buildBook [c1buy]) c1sell1).book "X" = [⟨0, 6, 1000⟩]
    ∧ (processData c1df).book "X" = []
    ∧ (processData c1df).results.map (fun r => r.costBase) = [400, 1000]
    ∧ ((processData c1df).results.map (fun r => r.costBase)).sum = 1400
    ∧ (1400 : ℚ) ≠ 1000 := by
  refine ⟨by decide, by decide, by decide, by decide, by decide, by decide⟩

/-! ### Malformed trades -/

def c7bad : RawTrade := ⟨"X", "Buy", 2023, 8, 0, -5, 100, 0, 0, 1⟩

def c7sell : RawTrade := ⟨"X", "Sell", 2023, 8, 10, 5, 200, 0, 0, 1⟩

def c7df : List RawTrade := [c7bad, c7sell]

/-- Counterexample to claim C7: a Buy with non-positive units (−5) is not
rejected — its absolute value becomes a 5-unit lot in the Lot Book, and a
later Sell draws a full Sale Result from that lot, so the invalid trade
contributes to both the Lot Book and a Sale Result. -/
theorem malformed_trade_not_rejected_cex :
    c7bad.units ≤ 0
    ∧ buildBook [c7bad] "X" = [⟨0, 5, 100⟩]
    ∧ (processData c7df).results.length = 1
    ∧ (processData c7df).results.map (fun r => r.costBase) = [100] := by
  refine ⟨by decide, by decide, by decide, by decide⟩

/-- Claim C7 as amended: a trade whose side is neither of the two
recognized variants is silently excluded — inserting it anywhere in the
batch leaves the output unchanged, so it contributes to neither the Lot
Book nor any Sale Result — but no diagnostic is emitted; and trades with
non-positive units are not rejected: a Buy's units are taken in absolute
value (a Buy of −5 units becomes a 5-unit lot), with no validation of the
numeric fields by the core. -/
theorem unrecognized_side_ignored :
    (∀ (l₁ l₂ : List RawTrade) (t : RawTrade), t.side ≠ "Buy" → t.side ≠ "Sell" →
        processData (l₁ ++ t :: l₂) = processData (l₁ ++ l₂))
    ∧ (∀ t : RawTrade, (mkLot t).units = |t.units|) := by
  constructor
  · intro l₁ l₂ t h1 h2
    unfold processData
    have hb : (l₁ ++ t :: l₂).filter (fun u => u.side == "Buy") =
        (l₁ ++ l₂).filter (fun u => u.side == "Buy") := by
      simp [List.filter_append, List.filter_cons, h1]
    have hs : (l₁ ++ t :: l₂).filter (fun u => u.side == "Sell") =
        (l₁ ++ l₂).filter (fun u => u.side == "Sell") := by
      simp [List.filter_append, List.filter_cons, h2]
    rw [hb, hs]
  · exact fun _ => rfl

def c7weird : RawTrade := ⟨"X", "Dividend", 2023, 8, 5, 1, 10, 0, 0, 1⟩

def c7good : RawTrade := ⟨"X", "Buy", 2023, 8, 0, 2, 20, 0, 0, 1⟩

theorem unrecognized_side_ignored_witness :
    processData ([c7good] ++ c7weird :: []) = processData ([c7good] ++ [])
    ∧ (mkLot c7bad).units = |c7bad.units| :=
  ⟨unrecognized_side_ignored.1 [c7good] [] c7weird (by decide) (by decide),
   unrecognized_side_ignored.2 c7bad⟩

end StockTax
